import Mathlib

/-
  Verification development for the AIDE data-administration core
  (repository frafra/aerial_wildlife_detection):

  * src/modules/DataAdministration/app.py — the request-handler layer
    (`DataAdministrator._parse_range`, `list_images`, `remove_images`);
  * src/projectCreation/import_images.py — the image-ingestion script
    (directory scan, extension filter, path normalisation, duplicate
    filter, bulk insert).

  Python dictionaries that the source mutates are modelled with an
  explicit store (addresses to dictionaries), so that aliasing and the
  effect of `dict.copy()` are visible.  The parts of the system whose
  implementation lives outside the two source files (the
  DataAdministration middleware) are modelled from the spec and marked
  as such in their doc comments.
-/

/-- Model of the Python values that flow through the range-parsing and
filtering code: JSON scalars plus the two `datetime` classes the source
uses.  `vTime t` models a `datetime.time` (time of day, in ticks since
midnight; `datetime.time.min` is `vTime 0`).  `vDateTime t` models a
`datetime.datetime` (an instant, in ticks since the earliest
representable instant; `datetime.datetime.min` is `vDateTime 0`).
Floats are modelled as exact rationals, which is faithful for the
literals the source uses (`0`, `1e9`). -/
inductive PyVal where
  | vNone : PyVal
  | vInt : ℤ → PyVal
  | vFloat : ℚ → PyVal
  | vStr : String → PyVal
  | vTime : ℕ → PyVal
  | vDateTime : ℕ → PyVal
deriving DecidableEq

/-- `datetime.time.min`, the value the source passes as default minimum
for the two temporal filters (app.py lines 86 and 89): midnight, a time
of day. -/
def time_min : PyVal := PyVal.vTime 0

/-- `datetime.datetime.min`, the earliest representable instant — the
value the spec's words "earliest representable instant" denote. -/
def datetime_min : PyVal := PyVal.vDateTime 0

/-- A Python dictionary with string keys, in insertion order. -/
abbrev Dict := List (String × PyVal)

/-- `d[k]` as an option (first matching key; Python dicts have unique
keys). -/
def dictGet (d : Dict) (k : String) : Option PyVal :=
  (d.find? (fun p => p.1 == k)).map (fun p => p.2)

/-- `d[k] = v`: replace the value of an existing key in place, or append
a new key at the end, as Python item assignment does. -/
def dictSet (d : Dict) (k : String) (v : PyVal) : Dict :=
  match d with
  | [] => [(k, v)]
  | p :: rest => if p.1 == k then (k, v) :: rest else p :: dictSet rest k v

/-- A heap of Python dictionaries: `mem a` is the dictionary stored at
address `a`, and every address `≥ next` is unallocated.  Mutation of a
dictionary is a write at its address, so aliasing between the caller's
dictionaries and the callee's is represented faithfully. -/
structure Store where
  mem : ℕ → Dict
  next : ℕ

/-- Allocate a fresh dictionary (used for `dict.copy()`): the copy lives
at the fresh address `next`, disjoint from every caller-visible
address. -/
def Store.alloc (σ : Store) (d : Dict) : Store × ℕ :=
  ({ mem := fun a => if a = σ.next then d else σ.mem a, next := σ.next + 1 }, σ.next)

/-- Overwrite the dictionary at address `a`. -/
def Store.write (σ : Store) (a : ℕ) (d : Dict) : Store :=
  { mem := fun b => if b = a then d else σ.mem b, next := σ.next }

/-- Embeds `DataAdministrator._parse_range` (app.py lines 46–64).
`params` is the request's JSON object restricted to its range-filter
entries: a mapping from filter names to the addresses of their nested
dictionaries (or `none` when the request body is `None`).  The source
takes `params[paramName].copy()` — modelled as an allocation of a fresh
address holding the same dictionary — fills the missing `min`/`max`
keys on the copy, and returns the `(min, max)` pair; it returns `None`
when `params` is `None` or the name is absent. -/
def parse_range (σ : Store) (params : Option (List (String × ℕ)))
    (paramName : String) (minValue maxValue : PyVal) :
    Store × Option (PyVal × PyVal) :=
  match params with
  | none => (σ, none)
  | some ps =>
    match List.lookup paramName ps with
    | none => (σ, none)
    | some addr =>
      let p0 := Store.alloc σ (σ.mem addr)
      let σ1 := p0.1
      let e := p0.2
      let σ2 :=
        if (dictGet (σ1.mem e) "min").isSome then σ1
        else Store.write σ1 e (dictSet (σ1.mem e) "min" minValue)
      let σ3 :=
        if (dictGet (σ2.mem e) "max").isSome then σ2
        else Store.write σ2 e (dictSet (σ2.mem e) "max" maxValue)
      (σ3, some ((dictGet (σ3.mem e) "min").getD PyVal.vNone,
                 (dictGet (σ3.mem e) "max").getD PyVal.vNone))

/-- The five parsed range filters of `list_images`, together with the
store after the five `_parse_range` calls. -/
structure ParsedRanges where
  store : Store
  imageAddedRange : Option (PyVal × PyVal)
  lastViewedRange : Option (PyVal × PyVal)
  viewcountRange : Option (PyVal × PyVal)
  numAnnoRange : Option (PyVal × PyVal)
  numPredRange : Option (PyVal × PyVal)

/-- Embeds the parameter-parsing prefix of `list_images` (app.py lines
82–99): the five `_parse_range` calls with the literal sentinels of the
source — `datetime.time.min` and `now` for the two temporal filters,
`0` and `1e9` for the three count filters. -/
def list_images_ranges (σ : Store) (params : Option (List (String × ℕ)))
    (now : PyVal) : ParsedRanges :=
  let r1 := parse_range σ params "imageAddedRange" time_min now
  let r2 := parse_range r1.1 params "lastViewedRange" time_min now
  let r3 := parse_range r2.1 params "viewcountRange" (PyVal.vInt 0) (PyVal.vFloat 1000000000)
  let r4 := parse_range r3.1 params "numAnnoRange" (PyVal.vInt 0) (PyVal.vFloat 1000000000)
  let r5 := parse_range r4.1 params "numPredRange" (PyVal.vInt 0) (PyVal.vFloat 1000000000)
  { store := r5.1
  , imageAddedRange := r1.2
  , lastViewedRange := r2.2
  , viewcountRange := r3.2
  , numAnnoRange := r4.2
  , numPredRange := r5.2 }

/-- The numeric value of a Python int or float, for the exact mixed
int/float comparison Python performs. -/
def PyVal.toRat : PyVal → Option ℚ
  | PyVal.vInt n => some (n : ℚ)
  | PyVal.vFloat q => some q
  | _ => none

/-- `a <= b` on Python numbers (exact comparison of ints and floats);
`false` when either side is not a number. -/
def pyLe (a b : PyVal) : Bool :=
  match a.toRat, b.toRat with
  | some x, some y => decide (x ≤ y)
  | _, _ => false

/-- The fields of a registered image that the viewcount range filter
reads (§3 of the spec); the remaining columns play no role in the
claims about the range query. -/
structure ImageRecord where
  filename : String
  viewcount : ℕ
deriving DecidableEq

/-- A parsed range filter accepts a count `v` when `min <= v <= max`
(inclusive bounds on both sides); an absent filter accepts
everything. -/
def inRange (r : Option (PyVal × PyVal)) (v : ℕ) : Bool :=
  match r with
  | none => true
  | some (lo, hi) => pyLe lo (PyVal.vInt v) && pyLe (PyVal.vInt v) hi

/-- Modelled from the spec: the result assembly of
`DataAdministrationMiddleware.listImages` is not under src (app.py only
forwards the parsed ranges to it); per §4.5 the result is the sequence
of images "satisfying all supplied filters", so the viewcount filter
keeps exactly the images whose viewcount lies within the parsed
`(min, max)` pair. -/
def listImages_filter (inventory : List ImageRecord)
    (viewcountRange : Option (PyVal × PyVal)) : List ImageRecord :=
  inventory.filter (fun img => inRange viewcountRange img.viewcount)

/-- The fixed allow-list of sortable columns of the image inventory
(§3 and §4.5 of the spec: the ImageRecord columns and derived
statistics). -/
def orderableColumns : List String :=
  ["id", "filename", "dateAdded", "lastViewed", "viewcount",
   "numAnnotations", "numPredictions"]

inductive QueryError where
  | invalidParameter : QueryError
deriving DecidableEq

/-- The ordering/limit part of a built inventory query. -/
structure QueryPlan where
  orderColumn : Option String
  descending : Bool
  limit : ℕ
deriving DecidableEq

/-- Modelled from the spec: the order-by/order/limit handling of the
Range Query Builder (§4.5) lives in `DataAdministrationMiddleware.listImages`,
which is not under src — `list_images` (app.py lines 100–114) only
extracts `orderBy`, `order` and `limit` from the request and forwards
them.  Per the spec, `orderBy` must name a column of the fixed
allow-list and fails closed with `InvalidParameter` otherwise; `order`
is ascending/descending; a missing `limit` falls back to a server-side
default cap. -/
def buildQuery (orderBy : Option String) (order : Option String)
    (limit : Option ℕ) : Except QueryError QueryPlan :=
  match orderBy with
  | none => Except.ok { orderColumn := none, descending := false, limit := limit.getD 1000 }
  | some ob =>
    if decide (ob ∈ orderableColumns) then
      match order with
      | none =>
        Except.ok { orderColumn := some ob, descending := false, limit := limit.getD 1000 }
      | some o =>
        if o = "ascending" then
          Except.ok { orderColumn := some ob, descending := false, limit := limit.getD 1000 }
        else if o = "descending" then
          Except.ok { orderColumn := some ob, descending := true, limit := limit.getD 1000 }
        else Except.error QueryError.invalidParameter
    else Except.error QueryError.invalidParameter

/-- The JSON body of a remove-images request: the `images` list and the
two optional boolean flags (absent key = `none`). -/
structure RemoveRequest where
  images : Option (List String)
  forceRemove : Option Bool
  deleteFromDisk : Option Bool

/-- The argument record `remove_images` hands to
`middleware.removeImages`. -/
structure RemoveInvocation where
  imageIDs : List String
  forceRemove : Bool
  deleteFromDisk : Bool
deriving DecidableEq

/-- Embeds the `remove_images` route handler (app.py lines 189–206):
`data['images']` raises a `KeyError` when absent (caught by the
handler's `except`, modelled as the error branch); each flag is read
with an `in` check and defaults to `False` when its key is absent.  The
middleware call itself is represented by the argument record it
receives. -/
def remove_images (data : RemoveRequest) : Except String RemoveInvocation :=
  match data.images with
  | none => Except.error "KeyError: images"
  | some ids =>
    let f := match data.forceRemove with
      | some b => b
      | none => false
    let d := match data.deleteFromDisk with
      | some b => b
      | none => false
    Except.ok { imageIDs := ids, forceRemove := f, deleteFromDisk := d }

/-- `pat` matches at the front of the character list. -/
def matchesAt : List Char → List Char → Bool
  | [], _ => true
  | _ :: _, [] => false
  | p :: ps, c :: cs => p == c && matchesAt ps cs

/-- `pat` occurs somewhere in the character list (Python `pat in s`). -/
def occursIn (pat : List Char) : List Char → Bool
  | [] => pat.isEmpty
  | c :: rest => matchesAt pat (c :: rest) || occursIn pat rest

/-- Python `str.replace` on character lists: every non-overlapping
occurrence of `pat`, scanned left to right, is replaced by `repl`.
(The source only calls it with the nonempty pattern `imgBaseDir`, which
ends in `os.sep`; the empty-pattern case is returned unchanged and is
never exercised.)  The recursion is made structural with a fuel
argument: each step consumes at least one character of the input and
one unit of fuel, so fuel equal to the input length (as supplied by
`replaceAll`) never runs out. -/
def replaceAllAux (pat repl : List Char) : ℕ → List Char → List Char
  | 0, s => s
  | _ + 1, [] => []
  | n + 1, c :: rest =>
    if pat ≠ [] ∧ matchesAt pat (c :: rest) = true then
      repl ++ replaceAllAux pat repl n ((c :: rest).drop pat.length)
    else
      c :: replaceAllAux pat repl n rest

/-- `str.replace` on character lists, with adequate fuel. -/
def replaceAll (pat repl s : List Char) : List Char :=
  replaceAllAux pat repl s.length s

/-- Embeds `i.replace(imgBaseDir, '')` (import_images.py line 76) and
`str.replace` generally. -/
def pyReplace (s pat repl : String) : String :=
  ⟨replaceAll pat.data repl.data s.data⟩

/-- Index of the last occurrence of `c`, as in Python `str.rfind`. -/
def rfind (c : Char) : List Char → Option ℕ
  | [] => none
  | x :: xs =>
    match rfind c xs with
    | some i => some (i + 1)
    | none => if x == c then some 0 else none

/-- The extension part of `os.path.splitext` (posixpath): the suffix
from the last dot, provided that dot comes after the last separator and
after at least one non-dot character of the basename (so dotfiles such
as `.bashrc` have no extension); empty otherwise. -/
def splitextExt (p : List Char) : List Char :=
  let sepIdx : ℤ := match rfind '/' p with
    | some i => (i : ℤ)
    | none => -1
  let dotIdx : ℤ := match rfind '.' p with
    | some i => (i : ℤ)
    | none => -1
  if dotIdx > sepIdx then
    if ((p.drop (sepIdx + 1).toNat).take (dotIdx - sepIdx - 1).toNat).any (fun c => c != '.') then
      p.drop dotIdx.toNat
    else []
  else []

/-- `os.path.splitext(i)[1]`, on strings. -/
def pyExt (s : String) : String :=
  ⟨splitextExt s.data⟩

/-- Python `str.lower` (ASCII case folding, which covers file
extensions). -/
def pyLower (s : String) : String :=
  ⟨s.data.map Char.toLower⟩

/-- Embeds the image-collection loop of import_images.py (lines 68–77):
the directory listing is given as `(path, isDirectory)` pairs (the
output of `listDirectory`/`os.path.isdir`, which are filesystem reads),
directories are skipped, and a file is kept exactly when the lower-cased
extension from `os.path.splitext` is a member of the valid-extension
set `validExts` (`VALID_IMAGE_EXTENSIONS` in the source, a deployment
constant passed here as a parameter). -/
def collectImages (files : List (String × Bool)) (validExts : List String) :
    List String :=
  (files.filter (fun f => !f.2 && decide (pyLower (pyExt f.1) ∈ validExts))).map (fun f => f.1)

/-- Modelled from the spec: filename validation of the Ingestion Engine
(§4.3) — "reject empty strings, reject absolute paths, reject
path-traversal sequences (`..`)".  The middleware that ingests
caller-supplied filenames is not under src;
import_images.py performs no such validation itself. -/
def validFilename (s : String) : Bool :=
  match s.data with
  | [] => false
  | c :: _ => !(c == '/') && !occursIn "..".data s.data

inductive RejectReason where
  | invalidName : RejectReason
  | duplicate : RejectReason
deriving DecidableEq

/-- Outcome of one ingestion call: the image table after the call (the
list of registered filenames, in insertion order, so the same name can
in principle appear more than once and uniqueness is a provable
property rather than a modelling assumption), the accepted filenames
and the per-item rejections. -/
structure IngestResult where
  db : List String
  accepted : List String
  rejected : List (String × RejectReason)
deriving DecidableEq

/-- The Ingestion Engine (§4.3).  The duplicate handling follows
import_images.py lines 79–98: `db` is the fresh read of the registered
filenames taken immediately before writing (`SELECT filename FROM
{project}.image`), candidates already present are dropped from the
insert, and the survivors are appended by one bulk `INSERT`.  Modelled
from the spec: the validation step (checked before the duplicate
check) and the per-item reason codes, which live in the
DataAdministration middleware, not under src.  `candidates` is
duplicate-free, as in the source, where it is a Python set. -/
def ingest (db : List String) (candidates : List String) : IngestResult :=
  let invalid := candidates.filter (fun c => !validFilename c)
  let valid := candidates.filter (fun c => validFilename c)
  let dups := valid.filter (fun c => decide (c ∈ db))
  let fresh := valid.filter (fun c => !decide (c ∈ db))
  { db := db ++ fresh
  , accepted := fresh
  , rejected := invalid.map (fun c => (c, RejectReason.invalidName))
                ++ dups.map (fun c => (c, RejectReason.duplicate)) }

/-- The Inventory Differ (§4.2).  The `diskOnly` side embeds
`imgs.difference(imgs_existing)` (import_images.py line 89); the
`dbOnly` side is modelled from the spec — §9 records that the source
leaves the "registered but missing on disk" direction unimplemented. -/
def diff (diskKeys dbKeys : Finset String) : Finset String × Finset String :=
  (diskKeys \ dbKeys, dbKeys \ diskKeys)

/-- Claim C8: for all finite sets D (disk keys) and B (database keys),
the inventory diff satisfies diskOnly = D − B and dbOnly = B − D, hence
diskOnly and dbOnly are disjoint and together with D ∩ B they cover
D ∪ B. -/
theorem diff_algebra (D B : Finset String) :
    (diff D B).1 = D \ B ∧ (diff D B).2 = B \ D ∧
    (diff D B).1 ∩ (diff D B).2 = ∅ ∧
    (diff D B).1 ∪ (diff D B).2 ∪ (D ∩ B) = D ∪ B := by
  refine ⟨rfl, rfl, ?_, ?_⟩
  · ext x
    simp only [diff, Finset.mem_inter, Finset.mem_sdiff, Finset.not_mem_empty, iff_false]
    tauto
  · ext x
    simp only [diff, Finset.mem_union, Finset.mem_sdiff, Finset.mem_inter]
    tauto

/-- Claim C3: an orderBy value outside the fixed allow-list of sortable
columns makes the list-images query construction fail with
InvalidParameter and never produces a query plan; any produced plan
orders by an allow-listed column only. -/
theorem listImages_orderBy_allowlist :
    (∀ (ob : String) (order : Option String) (limit : Option ℕ),
      ob ∉ orderableColumns →
      buildQuery (some ob) order limit = Except.error QueryError.invalidParameter) ∧
    (∀ (ob : String) (order : Option String) (limit : Option ℕ) (plan : QueryPlan),
      ob ∉ orderableColumns → buildQuery (some ob) order limit ≠ Except.ok plan) ∧
    (∀ (orderBy order : Option String) (limit : Option ℕ) (plan : QueryPlan) (col : String),
      buildQuery orderBy order limit = Except.ok plan →
      plan.orderColumn = some col → col ∈ orderableColumns) := by
  have hfail : ∀ (ob : String) (order : Option String) (limit : Option ℕ),
      ob ∉ orderableColumns →
      buildQuery (some ob) order limit = Except.error QueryError.invalidParameter := by
    intro ob order limit h
    have hd : decide (ob ∈ orderableColumns) = false := decide_eq_false h
    simp [buildQuery, hd]
  refine ⟨hfail, ?_, ?_⟩
  · intro ob order limit plan h hok
    rw [hfail ob order limit h] at hok
    exact Except.noConfusion hok
  · intro orderBy order limit plan col hok hcol
    unfold buildQuery at hok
    split at hok
    next =>
      simp only [Except.ok.injEq] at hok
      rw [← hok] at hcol
      exact Option.noConfusion hcol
    next ob =>
      split at hok
      next hd =>
        split at hok
        next =>
          simp only [Except.ok.injEq] at hok
          rw [← hok] at hcol
          cases hcol
          exact of_decide_eq_true hd
        next o =>
          split at hok
          next =>
            simp only [Except.ok.injEq] at hok
            rw [← hok] at hcol
            cases hcol
            exact of_decide_eq_true hd
          next =>
            split at hok
            next =>
              simp only [Except.ok.injEq] at hok
              rw [← hok] at hcol
              cases hcol
              exact of_decide_eq_true hd
            next =>
              exact Except.noConfusion hok
      next =>
        exact Except.noConfusion hok

/-- Witness for claim C3 at orderBy = "DROP TABLE image". -/
theorem listImages_orderBy_allowlist_witness :
    ("DROP TABLE image" ∉ orderableColumns) ∧
    buildQuery (some "DROP TABLE image") none none
      = Except.error QueryError.invalidParameter :=
  ⟨by decide, listImages_orderBy_allowlist.1 "DROP TABLE image" none none (by decide)⟩

/-- Claim C9: in the remove-images handler an absent forceRemove key
yields forceRemove = false and an absent deleteFromDisk key yields
deleteFromDisk = false in the performed removal; the flags are never
defaulted to true and absent flags are not an error. -/
theorem remove_images_flag_defaults (data : RemoveRequest) (ids : List String)
    (h : data.images = some ids) :
    remove_images data =
      Except.ok { imageIDs := ids,
                  forceRemove := data.forceRemove.getD false,
                  deleteFromDisk := data.deleteFromDisk.getD false } ∧
    (data.forceRemove = none → data.forceRemove.getD false = false) ∧
    (data.deleteFromDisk = none → data.deleteFromDisk.getD false = false) ∧
    (data.forceRemove.getD false = true → data.forceRemove = some true) ∧
    (data.deleteFromDisk.getD false = true → data.deleteFromDisk = some true) := by
  obtain ⟨imgs, fr, dd⟩ := data
  simp only at h
  subst h
  refine ⟨?_, ?_, ?_, ?_, ?_⟩ <;> cases fr <;> cases dd <;> simp [remove_images]

/-- Witness for claim C9: both flag keys absent. -/
theorem remove_images_flag_defaults_witness :
    (({ images := some ["id1"], forceRemove := none, deleteFromDisk := none : RemoveRequest}).images
        = some ["id1"]) ∧
    remove_images { images := some ["id1"], forceRemove := none, deleteFromDisk := none }
      = Except.ok { imageIDs := ["id1"], forceRemove := false, deleteFromDisk := false } :=
  ⟨rfl, (remove_images_flag_defaults
      { images := some ["id1"], forceRemove := none, deleteFromDisk := none } ["id1"] rfl).1⟩

/-- Claim C7 (code bug): `baseName = i.replace(imgBaseDir, '')` removes
EVERY occurrence of the root directory string, not only the leading
one: at rootPath "/data/" the scanned path "/data/x/data/y.jpg", whose
prefix-stripped relative key is "x/data/y.jpg", is mapped to "xy.jpg"
because the inner occurrence of "/data/" is removed too.  On paths with
no inner occurrence the two agree ("/data/a.jpg" gives "a.jpg"). -/
theorem baseName_replace_removes_all_occurrences :
    pyReplace "/data/x/data/y.jpg" "/data/" "" = "xy.jpg" ∧
    "/data/" ++ "x/data/y.jpg" = "/data/x/data/y.jpg" ∧
    (pyReplace "/data/x/data/y.jpg" "/data/" "" == "x/data/y.jpg") = false ∧
    pyReplace "/data/a.jpg" "/data/" "" = "a.jpg" :=
  ⟨by decide, by decide, by decide, by decide⟩

/-- Claim C5 (code bug): when a temporal filter omits its minimum, the
value `list_images` fills in is `datetime.time.min` — midnight, a time
of day — and not the earliest representable instant
(`datetime.datetime.min`): the two differ, and the filled-in minimum is
not a datetime value at all.  The rest of the claimed behaviour holds:
the default maximum of a temporal filter is the current time, a `None`
params or an absent filter name yields `None`, and the count filters
default to minimum 0 and maximum 1e9. -/
theorem temporal_default_min_is_time_of_day :
    (list_images_ranges
        { mem := fun a => if a = 0 then [("max", PyVal.vDateTime 77)] else [], next := 1 }
        (some [("imageAddedRange", 0)]) (PyVal.vDateTime 77)).imageAddedRange
      = some (time_min, PyVal.vDateTime 77) ∧
    (∀ t : ℕ, (time_min == PyVal.vDateTime t) = false) ∧
    (time_min == datetime_min) = false ∧
    (∀ (σ : Store) (name : String) (minValue maxValue : PyVal),
      parse_range σ none name minValue maxValue = (σ, none)) ∧
    (list_images_ranges
        { mem := fun a => if a = 0 then [("max", PyVal.vDateTime 77)] else [], next := 1 }
        (some [("imageAddedRange", 0)]) (PyVal.vDateTime 77)).viewcountRange = none ∧
    (list_images_ranges
        { mem := fun a => if a = 0 then [] else [], next := 1 }
        (some [("viewcountRange", 0)]) (PyVal.vDateTime 77)).viewcountRange
      = some (PyVal.vInt 0, PyVal.vFloat 1000000000) := by
  refine ⟨by decide, ?_, by decide, ?_, by decide, by decide⟩
  · intro t
    rfl
  · intro σ name minValue maxValue
    rfl

/-- Claim C6: the scan keeps exactly the non-directory files whose
extension matches the valid-extension allow-list case-insensitively
(the source compares the lower-cased extension against the allow-list,
whose entries are lower-case); on the directory with a.jpg, b.JPG,
c.txt, the subdirectory sub and sub/d.png, with allow-list
{.jpg, .png}, it yields exactly a.jpg, b.JPG and sub/d.png. -/
theorem scan_extension_filter :
    (∀ (files : List (String × Bool)) (exts : List String),
      (∀ e ∈ exts, pyLower e = e) →
      ∀ p : String, p ∈ collectImages files exts ↔
        ((p, false) ∈ files ∧ ∃ e ∈ exts, pyLower (pyExt p) = pyLower e)) ∧
    collectImages
        [("a.jpg", false), ("b.JPG", false), ("c.txt", false), ("sub", true), ("sub/d.png", false)]
        [".jpg", ".png"]
      = ["a.jpg", "b.JPG", "sub/d.png"] := by
  constructor
  · intro files exts he p
    constructor
    · intro hp
      obtain ⟨⟨q, b⟩, hmem, hq⟩ := List.mem_map.mp hp
      obtain ⟨hf, hpred⟩ := List.mem_filter.mp hmem
      simp only at hq
      subst hq
      simp only [Bool.and_eq_true, Bool.not_eq_true', decide_eq_true_eq] at hpred
      obtain ⟨hb, hin⟩ := hpred
      subst hb
      exact ⟨hf, ⟨pyLower (pyExt q), hin, (he _ hin).symm⟩⟩
    · rintro ⟨hf, e, hemem, heq⟩
      apply List.mem_map.mpr
      refine ⟨(p, false), List.mem_filter.mpr ⟨hf, ?_⟩, rfl⟩
      have hx : pyLower (pyExt p) ∈ exts := by
        rw [heq, he _ hemem]
        exact hemem
      simp [hx]
  · decide

/-- Witness for claim C6 at the concrete directory listing of the
claim. -/
theorem scan_extension_filter_witness :
    (∀ e ∈ [".jpg", ".png"], pyLower e = e) ∧
    ("sub/d.png" ∈ collectImages
        [("a.jpg", false), ("b.JPG", false), ("c.txt", false), ("sub", true), ("sub/d.png", false)]
        [".jpg", ".png"] ↔
      (("sub/d.png", false) ∈
          [("a.jpg", false), ("b.JPG", false), ("c.txt", false), ("sub", true), ("sub/d.png", false)] ∧
        ∃ e ∈ [".jpg", ".png"], pyLower (pyExt "sub/d.png") = pyLower e)) :=
  ⟨by decide, scan_extension_filter.1 _ _ (by decide) "sub/d.png"⟩

/-- Claim C10: `_parse_range` leaves the caller's params unchanged: it
copies the per-filter dictionary before filling in default bounds, so
every dictionary allocated before the call (in particular every
dictionary reachable from params) holds the same entries after the call
as before, for every combination of present and missing min/max
keys. -/
theorem parse_range_preserves_params (σ : Store) (params : Option (List (String × ℕ)))
    (paramName : String) (minValue maxValue : PyVal) (addr : ℕ) (h : addr < σ.next) :
    ((parse_range σ params paramName minValue maxValue).1).mem addr = σ.mem addr := by
  have hne : addr ≠ σ.next := Nat.ne_of_lt h
  cases params with
  | none => rfl
  | some ps =>
    cases hl : List.lookup paramName ps with
    | none => simp [parse_range, hl]
    | some a =>
      simp only [parse_range, hl, Store.alloc, Store.write]
      split_ifs <;> simp_all [hne]

/-- Witness for claim C10: a params dictionary holding
imageAddedRange = ⟨max only⟩ is unchanged by the call. -/
theorem parse_range_preserves_params_witness :
    ((0 : ℕ) < (1 : ℕ)) ∧
    ((parse_range
        { mem := fun a => if a = 0 then [("max", PyVal.vDateTime 77)] else [], next := 1 }
        (some [("imageAddedRange", 0)]) "imageAddedRange" time_min (PyVal.vDateTime 77)).1).mem 0
      = ({ mem := fun a => if a = 0 then [("max", PyVal.vDateTime 77)] else [], next := 1 : Store}).mem 0 :=
  ⟨by decide, parse_range_preserves_params _ _ _ _ _ 0 (by decide)⟩

/-- Claim C4 counterexample: with viewcountRange supplying only min = 5,
`list_images` fills the missing maximum with the sentinel 1e9, so the
image big.jpg with viewcount 1000000001 — which satisfies
viewcount ≥ 5 — is excluded from the result: the query construction
does introduce an implicit upper bound. -/
theorem viewcount_min_only_excludes_above_sentinel :
    (list_images_ranges
        { mem := fun a => if a = 0 then [("min", PyVal.vInt 5)] else [], next := 1 }
        (some [("viewcountRange", 0)]) (PyVal.vDateTime 0)).viewcountRange
      = some (PyVal.vInt 5, PyVal.vFloat 1000000000) ∧
    5 ≤ (1000000001 : ℕ) ∧
    listImages_filter [{ filename := "big.jpg", viewcount := 1000000001 }]
        ((list_images_ranges
            { mem := fun a => if a = 0 then [("min", PyVal.vInt 5)] else [], next := 1 }
            (some [("viewcountRange", 0)]) (PyVal.vDateTime 0)).viewcountRange)
      = [] :=
  ⟨by decide, by decide, by decide⟩

/-- Claim C4 as amended: with viewcountRange supplying only min = 5, the
result contains every image whose viewcount lies between 5 and the
sentinel default maximum 1e9; only images with viewcount above 1e9 can
be excluded by the implicit bound. -/
theorem viewcount_min_only_within_sentinel (inventory : List ImageRecord)
    (img : ImageRecord) (h1 : img ∈ inventory) (h2 : 5 ≤ img.viewcount)
    (h3 : img.viewcount ≤ 1000000000) :
    img ∈ listImages_filter inventory
      ((list_images_ranges
          { mem := fun a => if a = 0 then [("min", PyVal.vInt 5)] else [], next := 1 }
          (some [("viewcountRange", 0)]) (PyVal.vDateTime 0)).viewcountRange) := by
  have hr : (list_images_ranges
      { mem := fun a => if a = 0 then [("min", PyVal.vInt 5)] else [], next := 1 }
      (some [("viewcountRange", 0)]) (PyVal.vDateTime 0)).viewcountRange
    = some (PyVal.vInt 5, PyVal.vFloat 1000000000) := by decide
  rw [hr]
  apply List.mem_filter.mpr
  refine ⟨h1, ?_⟩
  simp [inRange, pyLe, PyVal.toRat]
  exact ⟨h2, h3⟩

/-- Witness for the amended claim C4 at an image with viewcount 7. -/
theorem viewcount_min_only_within_sentinel_witness :
    (({ filename := "a.jpg", viewcount := 7 : ImageRecord })
        ∈ [({ filename := "a.jpg", viewcount := 7 : ImageRecord })] ∧
      5 ≤ (7 : ℕ) ∧ (7 : ℕ) ≤ 1000000000) ∧
    ({ filename := "a.jpg", viewcount := 7 : ImageRecord })
      ∈ listImages_filter [({ filename := "a.jpg", viewcount := 7 : ImageRecord })]
        ((list_images_ranges
            { mem := fun a => if a = 0 then [("min", PyVal.vInt 5)] else [], next := 1 }
            (some [("viewcountRange", 0)]) (PyVal.vDateTime 0)).viewcountRange) :=
  ⟨⟨by decide, by decide, by decide⟩,
    viewcount_min_only_within_sentinel _ _ (by decide) (by decide) (by decide)⟩

/-- Claim C2: a candidate filename that is empty, absolute or contains a
path-traversal sequence is rejected as invalid before the duplicate
check, is never inserted and is never accepted; ingesting
../etc/passwd, a.jpg, "" rejects the first and third as invalid and
accepts a.jpg when it is not already present. -/
theorem ingest_invalid_names (db : List String) (h : "a.jpg" ∉ db) :
    (∀ (db2 cands : List String) (c : String), c ∈ cands → validFilename c = false →
      (c, RejectReason.invalidName) ∈ (ingest db2 cands).rejected ∧
      (ingest db2 cands).db.count c = db2.count c ∧
      c ∉ (ingest db2 cands).accepted) ∧
    ingest db ["../etc/passwd", "a.jpg", ""] =
      { db := db ++ ["a.jpg"], accepted := ["a.jpg"],
        rejected := [("../etc/passwd", RejectReason.invalidName),
                     ("", RejectReason.invalidName)] } := by
  constructor
  · intro db2 cands c hc hv
    have hfresh : c ∉ (cands.filter (fun x => validFilename x)).filter
        (fun x => !decide (x ∈ db2)) := by
      intro hmem
      have h1 := List.mem_filter.mp (List.mem_filter.mp hmem).1
      rw [hv] at h1
      exact Bool.noConfusion h1.2
    refine ⟨?_, ?_, ?_⟩
    · apply List.mem_append.mpr
      left
      apply List.mem_map.mpr
      refine ⟨c, ?_, rfl⟩
      apply List.mem_filter.mpr
      exact ⟨hc, by rw [hv]; rfl⟩
    · simp only [ingest, List.count_append]
      rw [List.count_eq_zero.mpr hfresh]
      omega
    · exact hfresh
  · have h1 : validFilename "../etc/passwd" = false := by decide
    have h2 : validFilename "a.jpg" = true := by decide
    have h3 : validFilename "" = false := by decide
    simp [ingest, h1, h2, h3, h]

/-- Witness for claim C2 at the empty project table. -/
theorem ingest_invalid_names_witness :
    ("a.jpg" ∉ ([] : List String)) ∧
    ingest [] ["../etc/passwd", "a.jpg", ""] =
      { db := [] ++ ["a.jpg"], accepted := ["a.jpg"],
        rejected := [("../etc/passwd", RejectReason.invalidName),
                     ("", RejectReason.invalidName)] } :=
  ⟨by decide, (ingest_invalid_names [] (by decide)).2⟩

/-- Claim C1: for a project state satisfying the filename-uniqueness
invariant and a valid candidate filename, ingesting the same filename
twice sequentially (the second call re-reading the table the first call
produced) leaves exactly one row with that filename; the second call
inserts nothing and reports the name as a duplicate. -/
theorem ingest_same_filename_twice (db : List String) (n : String)
    (h1 : db.count n ≤ 1) (h2 : validFilename n = true) :
    (ingest (ingest db [n]).db [n]).db = (ingest db [n]).db ∧
    ((ingest db [n]).db).count n = 1 ∧
    ((ingest (ingest db [n]).db [n]).db).count n = 1 ∧
    (ingest (ingest db [n]).db [n]).rejected = [(n, RejectReason.duplicate)] ∧
    (ingest (ingest db [n]).db [n]).accepted = [] := by
  by_cases hm : n ∈ db
  · have hc1 : db.count n = 1 := by
      have hpos : 0 < db.count n := List.count_pos_iff.mpr hm
      omega
    have hd1 : (ingest db [n]).db = db := by
      simp [ingest, h2, hm]
    have hd2 : ingest db [n] = { db := db, accepted := [], rejected := [(n, RejectReason.duplicate)] } := by
      simp [ingest, h2, hm]
    exact ⟨by rw [hd1, hd1], by rw [hd1]; exact hc1, by rw [hd1, hd1]; exact hc1,
      by rw [hd1, hd2], by rw [hd1, hd2]⟩
  · have hc0 : db.count n = 0 := List.count_eq_zero.mpr hm
    have hd1 : (ingest db [n]).db = db ++ [n] := by
      simp [ingest, h2, hm]
    have hm2 : n ∈ db ++ [n] := List.mem_append.mpr (Or.inr (List.mem_singleton.mpr rfl))
    have hc1 : (db ++ [n]).count n = 1 := by
      rw [List.count_append, hc0]
      simp
    have hd2 : ingest (db ++ [n]) [n] = { db := db ++ [n], accepted := [], rejected := [(n, RejectReason.duplicate)] } := by
      simp [ingest, h2, hm2]
    rw [hd1, hd2]
    exact ⟨rfl, hc1, hc1, rfl, rfl⟩

/-- Witness for claim C1: ingesting a.jpg twice into the project table
holding x.jpg. -/
theorem ingest_same_filename_twice_witness :
    (List.count "a.jpg" ["x.jpg"] ≤ 1 ∧ validFilename "a.jpg" = true) ∧
    ((ingest (ingest ["x.jpg"] ["a.jpg"]).db ["a.jpg"]).db = (ingest ["x.jpg"] ["a.jpg"]).db ∧
     ((ingest ["x.jpg"] ["a.jpg"]).db).count "a.jpg" = 1 ∧
     ((ingest (ingest ["x.jpg"] ["a.jpg"]).db ["a.jpg"]).db).count "a.jpg" = 1 ∧
     (ingest (ingest ["x.jpg"] ["a.jpg"]).db ["a.jpg"]).rejected
        = [("a.jpg", RejectReason.duplicate)] ∧
     (ingest (ingest ["x.jpg"] ["a.jpg"]).db ["a.jpg"]).accepted = []) :=
  ⟨⟨by decide, by decide⟩, ingest_same_filename_twice ["x.jpg"] "a.jpg" (by decide) (by decide)⟩
